import Mathlib

/-!
# Verification of the Alpha-Foundry ingestion-and-windowing pipeline

A shallow embedding of the core worker data structures and algorithms
(`apps/worker/state.py`, `apps/worker/run.py`, `apps/worker/transform.py`)
together with proofs of the specified properties.

Modelling conventions:
* Python `float` / `Decimal` arithmetic is modelled exactly over `ℚ`.
* Python lists are `List`, dicts keyed by pool id are association lists.
* The Python `list.sort(key=..., reverse=True)` (a stable sort) is modelled by
  `List.mergeSort` with the reversed comparison.
* The Python slice `xs[-n:]` is modelled by `pySliceLast` (note the Python
  corner case: `xs[-0:]` is the whole list).
* A Python `set` of strings has no specified iteration order; where the code
  iterates a set (`list(self.seen)`) the enumeration is an explicit parameter.
-/

namespace AlphaFoundry

/-- Python slice `xs[-n:]`: the last `n` elements, except that `xs[-0:] = xs`. -/
def pySliceLast (xs : List α) (n : Nat) : List α :=
  if n = 0 then xs else xs.drop (xs.length - n)

/-- `min` of a list of naturals as the Python `min` on a nonempty list (0 for `[]`). -/
def listMin : List Nat → Nat
  | [] => 0
  | x :: xs => xs.foldl Nat.min x

/-- `max` of a list of naturals as the Python `max` on a nonempty list (0 for `[]`). -/
def listMax : List Nat → Nat
  | [] => 0
  | x :: xs => xs.foldl Nat.max x

/-- Sum of a list of rationals. -/
def listSum (xs : List ℚ) : ℚ := xs.foldr (· + ·) 0

/-! ## SwapRow (`transform.normalize_log_to_swap` output, fields used by the core) -/

/-- A normalized swap row (the fields of the JSONL rows that the windowing,
dedup and analytics code reads: `r.get("timestamp", 0)`,
`r.get("block_number", 0)`, `tx_hash`, `log_index`, `pool_id`,
`normalized_price`). -/
structure SwapRow where
  timestamp : Int
  blockNumber : Int
  txHash : String
  logIndex : Nat
  poolId : String
  normalizedPrice : Option ℚ
  deriving DecidableEq, Repr

/-! ## Rolling window pruning (`run.apply_rolling_window_pruning`) -/

/-- The stats dict returned by `apply_rolling_window_pruning`. -/
structure PruneStats where
  totalBefore : Nat
  totalAfter : Nat
  rowsDropped : Nat
  oldestTs : Option Int
  newestTs : Option Int
  oldestBlock : Option Int
  newestBlock : Option Int
  deriving DecidableEq, Repr

/-- The sort key `(r.get("timestamp", 0), r.get("block_number", 0))`. -/
def rowKey (r : SwapRow) : Int × Int := (r.timestamp, r.blockNumber)

/-- Lexicographic `≤` on row keys, i.e. Python tuple comparison. -/
def rowKeyLe (a b : SwapRow) : Prop :=
  a.timestamp < b.timestamp ∨ (a.timestamp = b.timestamp ∧ a.blockNumber ≤ b.blockNumber)

instance : DecidablePred fun p : SwapRow × SwapRow => rowKeyLe p.1 p.2 :=
  fun _ => by unfold rowKeyLe; infer_instance

instance (a b : SwapRow) : Decidable (rowKeyLe a b) := by unfold rowKeyLe; infer_instance

/-- `rows.sort(key=lambda r: (ts, block), reverse=True)`: stable sort,
descending in the lexicographic key. -/
def sortRowsDesc (rows : List SwapRow) : List SwapRow :=
  rows.mergeSort fun a b => decide (rowKeyLe b a)

/-- Python `min(r.get("timestamp",0) for r in rows)` over a `List Int` (with
`none` for the empty generator / missing file case). -/
def intsMin : List Int → Option Int
  | [] => none
  | x :: xs => some (xs.foldl Min.min x)

/-- Python `max(...)` analogue of `intsMin`. -/
def intsMax : List Int → Option Int
  | [] => none
  | x :: xs => some (xs.foldl Max.max x)

/-- `apply_rolling_window_pruning` (`run.py:490-605`), acting on the decoded
row list of the JSONL file.  Returns the rows the file holds afterwards and
the stats dict.  The no-op branch (`total_before <= window_size`) returns the
file contents unchanged with `rows_dropped = 0`; otherwise the rows are sorted
descending by `(timestamp, block_number)` and the first `window_size` are kept. -/
def applyRollingWindowPruning (rows : List SwapRow) (windowSize : Nat) :
    List SwapRow × PruneStats :=
  let totalBefore := rows.length
  if totalBefore ≤ windowSize then
    (rows,
      { totalBefore := totalBefore
        totalAfter := totalBefore
        rowsDropped := 0
        oldestTs := intsMin (rows.map (·.timestamp))
        newestTs := intsMax (rows.map (·.timestamp))
        oldestBlock := intsMin (rows.map (·.blockNumber))
        newestBlock := intsMax (rows.map (·.blockNumber)) })
  else
    let sorted := sortRowsDesc rows
    let keptRows := sorted.take windowSize
    let droppedRows := sorted.drop windowSize
    (keptRows,
      { totalBefore := totalBefore
        totalAfter := keptRows.length
        rowsDropped := droppedRows.length
        oldestTs := intsMin (keptRows.map (·.timestamp))
        newestTs := intsMax (keptRows.map (·.timestamp))
        oldestBlock := intsMin (keptRows.map (·.blockNumber))
        newestBlock := intsMax (keptRows.map (·.blockNumber)) })

/-- The dedupe keys of the rows dropped by pruning
(the set comprehension over `dropped_rows` at `run.py:590-593`). -/
def droppedKeys (rows : List SwapRow) (windowSize : Nat) : List String :=
  ((sortRowsDesc rows).drop windowSize).map fun r => r.txHash ++ ":" ++ toString r.logIndex

/-! ## DedupeTracker (`state.py:250-301`)

The Python `seen` attribute is a `set` of strings.  We model its contents as
a duplicate-free list kept in insertion order (for bookkeeping), and model the
unspecified iteration order of `list(self.seen)` by an explicit `enum`
parameter: CPython string hashing is randomized, so the order in which a set
enumerates its elements is arbitrary and in particular need not be the
insertion order. -/

/-- The dedup key `f"{tx_hash}:{log_index}"`. -/
def dedupKey (txHash : String) (logIndex : Nat) : String :=
  txHash ++ ":" ++ toString logIndex

/-- `DedupeTracker`: the `seen` set (listed in insertion order) and `max_size`. -/
structure DedupeTracker where
  seen : List String
  maxSize : Nat
  deriving DecidableEq, Repr

/-- `int(max_size * 0.2)`: the number of entries removed on eviction.
(Python computes this with float multiplication; for every realistic
`max_size` this equals `max_size / 5` in integer arithmetic.) -/
def evictCount (maxSize : Nat) : Nat := maxSize / 5

/-- `DedupeTracker.is_duplicate` (`state.py:257-260`). -/
def DedupeTracker.isDuplicate (t : DedupeTracker) (txHash : String) (logIndex : Nat) : Bool :=
  decide (dedupKey txHash logIndex ∈ t.seen)

/-- `DedupeTracker.mark_seen` (`state.py:262-273`).  `enum` gives the order in
which `list(self.seen)` enumerates the set (an arbitrary permutation in
CPython); the first `int(max_size * 0.2)` elements of that enumeration are
discarded when the set grows past `max_size`. -/
def DedupeTracker.markSeen (enum : List String → List String)
    (t : DedupeTracker) (txHash : String) (logIndex : Nat) : DedupeTracker :=
  let key := dedupKey txHash logIndex
  let s := if key ∈ t.seen then t.seen else t.seen ++ [key]
  if t.maxSize < s.length then
    let toRemove := (enum s).take (evictCount t.maxSize)
    { t with seen := s.filter fun k => decide (k ∉ toRemove) }
  else
    { t with seen := s }

/-- `DedupeTracker.prune` (`state.py:275-288`): `self.seen -= keys_to_remove`. -/
def DedupeTracker.prune (t : DedupeTracker) (keysToRemove : List String) : DedupeTracker :=
  { t with seen := t.seen.filter fun k => decide (k ∉ keysToRemove) }

/-! ## Per-log processing in `fetch_and_process_logs` (`run.py:298-322`)

Each log is checked against the dedup tracker, then normalized; a successfully
normalized row is appended to the batch and its key marked seen.  The
normalization function (`normalize_log_to_swap` applied to the fetched log) is
a parameter `norm`. -/

/-- A fetched log item, with the fields the pagination/dedup code reads. -/
structure LogItem where
  txHash : String
  logIndex : Nat
  ts : Nat
  blk : Nat
  deriving DecidableEq, Repr

/-- One iteration of the per-log loop in `fetch_and_process_logs`
(`run.py:298-322`): skip duplicates, otherwise normalize; on success append
the row and mark the key seen. -/
def processLog (norm : LogItem → Option SwapRow) (enum : List String → List String)
    (st : List SwapRow × DedupeTracker) (item : LogItem) :
    List SwapRow × DedupeTracker :=
  let (rows, t) := st
  if t.isDuplicate item.txHash item.logIndex then
    (rows, t)
  else
    match norm item with
    | some row => (rows ++ [row], t.markSeen enum item.txHash item.logIndex)
    | none => (rows, t)

/-! ## RollingPriceBuffer (`state.py:73-247`) -/

/-- One `{"price": ..., "timestamp": ...}` buffer entry. -/
structure PriceSample where
  price : ℚ
  timestamp : Int
  deriving DecidableEq, Repr

/-- `RollingPriceBuffer`: the `buffers` dict (pool id → entry list, as an
association list in dict insertion order) and `max_size`. -/
structure RollingPriceBuffer where
  buffers : List (String × List PriceSample)
  maxSize : Nat
  deriving DecidableEq, Repr

/-- Dict lookup `self.buffers[pool_id]` (with `[]` standing in for a missing
key, as after the `if pool_id not in self.buffers` guard). -/
def RollingPriceBuffer.entries (b : RollingPriceBuffer) (poolId : String) : List PriceSample :=
  match b.buffers.find? fun p => p.1 == poolId with
  | some p => p.2
  | none => []

/-- Dict assignment `self.buffers[pool_id] = es`: replace the value of an
existing key in place, else append the new key. -/
def assocSet (l : List (String × List PriceSample)) (k : String) (v : List PriceSample) :
    List (String × List PriceSample) :=
  match l with
  | [] => [(k, v)]
  | p :: rest => if p.1 == k then (k, v) :: rest else p :: assocSet rest k v

/-- `RollingPriceBuffer.add_price` (`state.py:80-92`): append the sample, then
trim to the most recent `max_size` entries (Python `lst[-max_size:]`) when the
list has grown past `max_size`. -/
def RollingPriceBuffer.addPrice (b : RollingPriceBuffer) (poolId : String)
    (price : ℚ) (ts : Int) : RollingPriceBuffer :=
  let es := b.entries poolId ++ [⟨price, ts⟩]
  let es := if b.maxSize < es.length then pySliceLast es b.maxSize else es
  { b with buffers := assocSet b.buffers poolId es }

/-- `RollingPriceBuffer.prune_by_timestamp` (`state.py:185-206`): keep only
entries with `timestamp >= cutoff`, and drop pools whose list becomes empty. -/
def RollingPriceBuffer.pruneByTimestamp (b : RollingPriceBuffer) (cutoff : Int) :
    RollingPriceBuffer :=
  { b with
    buffers :=
      (b.buffers.map fun p => (p.1, p.2.filter fun e => decide (cutoff ≤ e.timestamp))).filter
        fun p => !p.2.isEmpty }

/-- Ascending sort of rational prices (`sorted(prices)`). -/
def sortPricesAsc (prices : List ℚ) : List ℚ :=
  prices.mergeSort fun a b => decide (a ≤ b)

/-- The local `median_price` of `get_moving_average` (`state.py:113-116`):
`sorted_prices[len(sorted_prices) // 2]`, the upper median. -/
def medianPrice (prices : List ℚ) : ℚ :=
  (sortPricesAsc prices).getD ((sortPricesAsc prices).length / 2) 0

/-- The local `filtered` of `get_moving_average` (`state.py:120`): the prices
whose ratio to the median lies in the open interval `(0.1, 10)`. -/
def ratioFiltered (prices : List ℚ) : List ℚ :=
  prices.filter fun p =>
    decide ((1 : ℚ)/10 < p / medianPrice prices) && decide (p / medianPrice prices < 10)

/-- `RollingPriceBuffer.get_moving_average` (`state.py:94-126`) on the price list
of one pool: take the last `window` prices (`[-window:]`); when more than one
price is present compute the (upper) median `sorted_prices[len // 2]`, and if
it is positive keep only prices whose ratio to it lies in `(0.1, 10)` and
return their average when any survive; in every other case fall back to the
simple average. -/
def movingAverageOfPrices (prices : List ℚ) (window : Nat) : ℚ :=
  if prices.isEmpty then 0
  else
    let recent := pySliceLast prices window
    if recent.isEmpty then 0
    else
      if 1 < recent.length then
        if 0 < medianPrice recent then
          if !(ratioFiltered recent).isEmpty then
            listSum (ratioFiltered recent) / (ratioFiltered recent).length
          else
            listSum recent / recent.length
        else
          listSum recent / recent.length
      else
        listSum recent / recent.length

/-- Modelled from the words of the specification (for comparison with the
source function `movingAverageOfPrices`): take the most recent `window`
samples; when more than one sample is present compute their median and
discard every sample whose ratio to the median lies outside `(0.1, 10)`
before averaging the remainder, falling back to the unfiltered simple
average if filtering leaves no samples.  (No positivity guard on the
median.) -/
def claimedMovingAverage (prices : List ℚ) (window : Nat) : ℚ :=
  if prices.isEmpty then 0
  else
    let recent := pySliceLast prices window
    if 1 < recent.length then
      if !(ratioFiltered recent).isEmpty then
        listSum (ratioFiltered recent) / (ratioFiltered recent).length
      else
        listSum recent / recent.length
    else
      listSum recent / recent.length

/-- `get_moving_average` on the buffer: missing pool or empty list gives 0. -/
def RollingPriceBuffer.getMovingAverage (b : RollingPriceBuffer) (poolId : String)
    (window : Nat) : ℚ :=
  let es := b.entries poolId
  if es.isEmpty then 0 else movingAverageOfPrices (es.map (·.price)) window

/-! ## `transform.compute_price_delta` (`transform.py:213-247`) -/

/-- `compute_price_delta`: 0 when either price is nonpositive; otherwise the
percentage difference `(a - b) / b * 100`, except that `a` is first replaced
by `1 / a` when `|a / b|` is above 100 or below 0.01 (the auto-invert for
opposite swap directions). -/
def compute_price_delta (priceA priceB : ℚ) : ℚ :=
  if priceA ≤ 0 ∨ priceB ≤ 0 then 0
  else
    let ratio := |priceA / priceB|
    let a := if 100 < ratio ∨ ratio < 1/100 then 1 / priceA else priceA
    (a - priceB) / priceB * 100

/-! ## V2 swap direction resolution (`transform.normalize_log_to_swap`,
`transform.py:470-493`) -/

/-- Swap direction for a 5-parameter (V2-shape) event. -/
inductive SwapDirection where
  | zeroToOne  -- token0 → token1
  | oneToZero  -- token1 → token0
  deriving DecidableEq, Repr

/-- The V2 branch of `normalize_log_to_swap` (`transform.py:470-493`): with
decoded amounts `(amount0In, amount1In, amount0Out, amount1Out)`, the first
`if` resolves direction token0→token1 when `amount0In > 0 and amount1Out > 0`;
the `elif` resolves token1→token0 when `amount1In > 0 and amount0Out > 0`;
otherwise `token_in_addr`/`token_out_addr` stay unset and the function
returns `None`. -/
def resolveV2Direction (amount0In amount1In amount0Out amount1Out : Int) :
    Option SwapDirection :=
  if 0 < amount0In ∧ 0 < amount1Out then some .zeroToOne
  else if 0 < amount1In ∧ 0 < amount0Out then some .oneToZero
  else none

/-! ## Spread and arbitrage alert in `update_preview_with_analytics`
(`run.py:994-1018`) -/

/-- The Python `round(x, 2)` on our exact rationals: round half to even at two
decimal places. -/
def pyRound2 (x : ℚ) : ℚ :=
  let y := x * 100
  let f := ⌊y⌋
  let r := y - f
  (if r < 1/2 then f
   else if 1/2 < r then f + 1
   else if f % 2 = 0 then f else f + 1) / 100

/-- The spread section of the preview header. -/
structure SpreadResult where
  spreadPercent : Option ℚ
  spreadReason : Option String
  arbAlert : Option SwapDirection  -- `some` iff an ARB OPPORTUNITY alert string is emitted;
                                   -- zeroToOne stands for "PoolA→PoolB", oneToZero for "PoolB→PoolA"
  deriving DecidableEq, Repr

/-- `run.py:994-1018`: with exactly two pools and spread alerts enabled, when
both latest prices are positive the header spread is
`round(((price_a - price_b) / price_b) * 100.0, 2)` and an arbitrage alert is
emitted exactly when its absolute value exceeds 0.5 (direction PoolA→PoolB
for a positive spread, else PoolB→PoolA); otherwise a reason is recorded
instead. -/
def computeSpread (priceA priceB : ℚ) (numPools : Nat) (enableSpreadAlerts : Bool) :
    SpreadResult :=
  if numPools = 2 ∧ enableSpreadAlerts then
    if 0 < priceA ∧ 0 < priceB then
      let spread := pyRound2 ((priceA - priceB) / priceB * 100)
      { spreadPercent := some spread
        spreadReason := none
        arbAlert :=
          if 1/2 < |spread| then
            some (if 0 < spread then .zeroToOne else .oneToZero)
          else none }
    else if priceA = 0 ∧ priceB = 0 then
      ⟨none, some "no recent prices for either pool", none⟩
    else if priceA = 0 then
      ⟨none, some "no recent price for pool A", none⟩
    else if priceB = 0 then
      ⟨none, some "no recent price for pool B", none⟩
    else
      ⟨none, none, none⟩
  else
    ⟨none, some "requires exactly 2 pools", none⟩

/-! ## Pagination with early stop (`fetch_and_process_logs`, `run.py:252-349`) -/

/-- The early-stop mode (`EARLY_STOP_MODE` / `WINDOW_STRATEGY`). -/
inductive EarlyStopMode where
  | timestamp
  | block
  deriving DecidableEq, Repr

/-- The cycle stats dict built by `fetch_and_process_logs`. -/
structure FetchStats where
  totalLogsFetched : Nat
  pagesFetched : Nat
  earlyStopTriggered : Bool
  maxBlockSeen : Nat
  maxTsSeen : Nat
  deriving DecidableEq, Repr

/-- The initial stats dict (`run.py:237-244`). -/
def initialFetchStats : FetchStats :=
  { totalLogsFetched := 0, pagesFetched := 0, earlyStopTriggered := false
    maxBlockSeen := 0, maxTsSeen := 0 }

/-- The `while page_count < max_pages` pagination loop of
`fetch_and_process_logs` for one pool (`run.py:252-349`).  The paginated
source is the list `pages`; fetching with the current cursor returns the head
page and a next-cursor that is exhausted exactly when no pages remain.  Each
page is counted, its logs processed through dedup + normalize, and only then
are the early-stop conditions checked: in timestamp mode with a positive
timestamp watermark the loop breaks when the minimum log timestamp of the page is
at or below the watermark; analogously in block mode for block numbers. -/
def fetchPagesLoop (mode : EarlyStopMode) (watermarkTs watermarkBlock maxPages : Nat)
    (norm : LogItem → Option SwapRow) (enum : List String → List String) :
    List (List LogItem) → Nat → List SwapRow → DedupeTracker → FetchStats →
    List SwapRow × DedupeTracker × FetchStats
  | pages, pageCount, rows, t, stats =>
    if pageCount < maxPages then
      match pages with
      | [] =>
        -- the source returns an empty page and no cursor: `if not logs: break`
        (rows, t, { stats with pagesFetched := stats.pagesFetched + 1 })
      | logs :: rest =>
        let stats := { stats with
          pagesFetched := stats.pagesFetched + 1
          totalLogsFetched := stats.totalLogsFetched + logs.length }
        if logs.isEmpty then
          (rows, t, stats)
        else
          let logTimestamps := logs.map (·.ts)
          let logBlocks := logs.map (·.blk)
          let stats := { stats with
            maxBlockSeen := Nat.max stats.maxBlockSeen (listMax logBlocks)
            maxTsSeen := Nat.max stats.maxTsSeen (listMax logTimestamps) }
          let rt := logs.foldl (processLog norm enum) (rows, t)
          if mode = .timestamp ∧ 0 < watermarkTs ∧ listMin logTimestamps ≤ watermarkTs then
            (rt.1, rt.2, { stats with earlyStopTriggered := true })
          else if mode = .block ∧ 0 < watermarkBlock ∧ listMin logBlocks ≤ watermarkBlock then
            (rt.1, rt.2, { stats with earlyStopTriggered := true })
          else if rest.isEmpty then
            -- `if not next_cursor: break`
            (rt.1, rt.2, stats)
          else
            fetchPagesLoop mode watermarkTs watermarkBlock maxPages norm enum
              rest (pageCount + 1) rt.1 rt.2 stats
    else
      (rows, t, stats)

/-- `fetch_and_process_logs` for a single pool: run the pagination loop from
page count 0 with fresh stats. -/
def fetchAndProcessLogs (mode : EarlyStopMode) (watermarkTs watermarkBlock maxPages : Nat)
    (norm : LogItem → Option SwapRow) (enum : List String → List String)
    (pages : List (List LogItem)) (dedupe : DedupeTracker) :
    List SwapRow × DedupeTracker × FetchStats :=
  fetchPagesLoop mode watermarkTs watermarkBlock maxPages norm enum
    pages 0 [] dedupe initialFetchStats

/-! ## One ingestion cycle (`run_cycle`, `run.py:1090-1400`) -/

/-- The persisted watermark checkpoint (`state` dict entries read/written by
`run_cycle`). -/
structure WatermarkState where
  lastSeenTs : Nat
  lastSeenBlock : Nat
  deriving DecidableEq, Repr

/-- The mutable world one cycle acts on: the watermark checkpoint, the JSONL
dataset file contents, the dedup tracker, the rolling price buffer and the
preview-state hashes. -/
structure CycleWorld where
  state : WatermarkState
  dataset : List SwapRow
  dedupe : DedupeTracker
  priceBuffer : RollingPriceBuffer
  previewHashes : List String
  deriving DecidableEq, Repr

/-- The mutation phase of `run_cycle` after a successful latest-block fetch
(`run.py:1280-1400`, condensed to the state the claims track): feed each new
fields `(pool_id, normalized_price, timestamp)` of each new row into the price buffer (skipping
falsy values), append the batch to the dataset, apply rolling-window pruning
(pruning the dedup tracker for dropped rows in the same call), prune the price
buffer at the oldest retained timestamp of the window when that is truthy, refresh
the preview hashes, and advance the watermarks. -/
def runCycleBody (windowSize : Nat) (enum : List String → List String)
    (newRows : List SwapRow) (latestBlock latestTs nowTs : Nat)
    (w : CycleWorld) : CycleWorld :=
  let buf := newRows.foldl
    (fun b r =>
      match r.normalizedPrice with
      | some p =>
        if p ≠ 0 ∧ r.poolId ≠ "" ∧ r.timestamp ≠ 0 then b.addPrice r.poolId p r.timestamp
        else b
      | none => b)
    w.priceBuffer
  let appended := w.dataset ++ newRows
  let (kept, pruneStats) := applyRollingWindowPruning appended windowSize
  let dedupe :=
    if 0 < pruneStats.rowsDropped then w.dedupe.prune (droppedKeys appended windowSize)
    else w.dedupe
  let _ := enum
  let buf :=
    match pruneStats.oldestTs with
    | some ts => if ts ≠ 0 then buf.pruneByTimestamp ts else buf
    | none => buf
  { state :=
      { lastSeenTs := Nat.max (Nat.max w.state.lastSeenTs latestTs) nowTs
        lastSeenBlock := Nat.max w.state.lastSeenBlock latestBlock }
    dataset := kept
    dedupe := dedupe
    priceBuffer := buf
    previewHashes := pySliceLast (kept.map (·.txHash)) 10 }

/-- `run_cycle` (`run.py:1090-1400`): the latest-block fetch result is
`latest`; when it is `none` (the fetch raised), the `except` branch at
`run.py:1124-1127` returns the prior state with no mutation of any world
component; otherwise the cycle body runs. -/
def runCycle (windowSize : Nat) (enum : List String → List String)
    (newRows : List SwapRow) (latest : Option (Nat × Nat)) (nowTs : Nat)
    (w : CycleWorld) : CycleWorld :=
  let _rowsBefore := w.dataset.length  -- `count_jsonl_rows`, a pure read
  match latest with
  | none => w
  | some (latestBlock, latestTs) =>
    runCycleBody windowSize enum newRows latestBlock latestTs nowTs w

/-! # Theorems -/

/-- C5 (counterexample): the claim states that when BOTH direction conditions
hold, normalization returns null.  At decoded V2 amounts
`(amount0In, amount1In, amount0Out, amount1Out) = (1, 1, 1, 1)` both
conditions `amount0In > 0 ∧ amount1Out > 0` and `amount1In > 0 ∧ amount0Out > 0`
hold, yet the code resolves direction token0→token1 and produces a row rather
than returning null. -/
theorem resolveV2Direction_both_hold_cex :
    ((0 : Int) < 1 ∧ (0 : Int) < 1) ∧ ((0 : Int) < 1 ∧ (0 : Int) < 1) ∧
      resolveV2Direction 1 1 1 1 = some SwapDirection.zeroToOne ∧
      resolveV2Direction 1 1 1 1 ≠ none := by
  refine ⟨⟨by decide, by decide⟩, ⟨by decide, by decide⟩, ?_, ?_⟩ <;> decide

/-- C5 (amended): for a decoded 5-parameter (V2-shape) swap event, a row is
produced exactly when AT LEAST one of `(amount0In>0 ∧ amount1Out>0)` or
`(amount1In>0 ∧ amount0Out>0)` holds; the first condition takes priority and
establishes direction token0→token1 even when both hold, the second resolves
token1→token0 only when the first fails, and when neither holds normalization
returns null. -/
theorem resolveV2Direction_spec (a0In a1In a0Out a1Out : Int) :
    ((resolveV2Direction a0In a1In a0Out a1Out).isSome ↔
      (0 < a0In ∧ 0 < a1Out) ∨ (0 < a1In ∧ 0 < a0Out)) ∧
    (resolveV2Direction a0In a1In a0Out a1Out = some SwapDirection.zeroToOne ↔
      (0 < a0In ∧ 0 < a1Out)) ∧
    (resolveV2Direction a0In a1In a0Out a1Out = some SwapDirection.oneToZero ↔
      (0 < a1In ∧ 0 < a0Out) ∧ ¬(0 < a0In ∧ 0 < a1Out)) := by
  unfold resolveV2Direction
  split_ifs with h1 h2 <;> simp_all

/-- C6 (code bug witness): `DedupeTracker.mark_seen` evicts the first
`int(max_size * 0.2)` elements of `list(self.seen)`, but `self.seen` is a
Python set whose iteration order is arbitrary (hash-based, randomized) rather
than the insertion order.  With a full tracker of capacity 5 holding
`a:0 … e:0` in insertion order, inserting `f:0` under an admissible set
enumeration that yields the reverse of the insertion order evicts the NEWEST
key `f:0` and retains the oldest key `a:0` — not the claimed
oldest-20%-by-insertion-order eviction. -/
theorem markSeen_set_order_can_evict_newest :
    (DedupeTracker.markSeen List.reverse
        ⟨["a:0", "b:0", "c:0", "d:0", "e:0"], 5⟩ "f" 0).seen
      = ["a:0", "b:0", "c:0", "d:0", "e:0"] ∧
    dedupKey "f" 0 ∉ (DedupeTracker.markSeen List.reverse
        ⟨["a:0", "b:0", "c:0", "d:0", "e:0"], 5⟩ "f" 0).seen := by
  constructor <;> decide

/-- C8: when the latest-block fetch at the start of `run_cycle` fails
(`latest = none`), the cycle is aborted via the early return at
`run.py:1124-1127`: the prior watermark state is returned unchanged and the
dataset, dedup tracker, price buffer and preview state are all left exactly
as they were. -/
theorem runCycle_fetch_failure_no_mutation (windowSize : Nat)
    (enum : List String → List String) (newRows : List SwapRow) (nowTs : Nat)
    (w : CycleWorld) :
    runCycle windowSize enum newRows none nowTs w = w ∧
    (runCycle windowSize enum newRows none nowTs w).state = w.state ∧
    (runCycle windowSize enum newRows none nowTs w).dataset = w.dataset ∧
    (runCycle windowSize enum newRows none nowTs w).dedupe = w.dedupe ∧
    (runCycle windowSize enum newRows none nowTs w).priceBuffer = w.priceBuffer ∧
    (runCycle windowSize enum newRows none nowTs w).previewHashes = w.previewHashes :=
  ⟨rfl, rfl, rfl, rfl, rfl, rfl⟩

/-- C9: `compute_price_delta` returns 0 whenever either input price is
nonpositive; when both are positive and the ratio `priceA / priceB` is above
100 or below 0.01 it replaces `priceA` by `1 / priceA` before applying
`(priceA - priceB) / priceB * 100` — and on such inputs the result is in
general NOT the plain percentage-difference formula (e.g. at
`(priceA, priceB) = (1000, 1)`). -/
theorem compute_price_delta_spec :
    (∀ a b : ℚ, a ≤ 0 ∨ b ≤ 0 → compute_price_delta a b = 0) ∧
    (∀ a b : ℚ, 0 < a → 0 < b → (100 < a / b ∨ a / b < 1/100) →
      compute_price_delta a b = (1/a - b) / b * 100) ∧
    compute_price_delta 1000 1 ≠ (1000 - 1) / 1 * 100 := by
  have key : ∀ a b : ℚ, 0 < a → 0 < b → (100 < a / b ∨ a / b < 1/100) →
      compute_price_delta a b = (1/a - b) / b * 100 := by
    intro a b ha hb hr
    have hratio : |a / b| = a / b := abs_of_pos (div_pos ha hb)
    simp only [compute_price_delta]
    rw [if_neg (by push_neg; exact ⟨ha, hb⟩), hratio, if_pos hr]
  refine ⟨?_, key, ?_⟩
  · intro a b h
    simp only [compute_price_delta]
    rw [if_pos h]
  · rw [key 1000 1 (by norm_num) (by norm_num) (Or.inl (by norm_num))]
    norm_num

/-- C9 witness: the two branches of `compute_price_delta_spec` at concrete
inputs. -/
theorem compute_price_delta_spec_witness :
    compute_price_delta (-1) 5 = 0 ∧
    compute_price_delta 1000 1 = (1/1000 - 1) / 1 * 100 :=
  ⟨compute_price_delta_spec.1 (-1) 5 (Or.inl (by norm_num)),
   compute_price_delta_spec.2.1 1000 1 (by norm_num) (by norm_num)
     (Or.inl (by norm_num))⟩

/-- C7: with exactly two configured pools (and spread alerts enabled, the
default), whenever both pools report a positive latest price the preview
header spread is `round(((priceA - priceB) / priceB) * 100, 2)` and an
arbitrage alert is emitted exactly when its absolute value exceeds 0.5; in
particular latest prices 100.6 vs 100.0 (spread 0.6) emit an alert while
100.3 vs 100.0 (spread 0.3) do not. -/
theorem computeSpread_alert_spec (a b : ℚ) (ha : 0 < a) (hb : 0 < b) :
    (computeSpread a b 2 true).spreadPercent = some (pyRound2 ((a - b) / b * 100)) ∧
    ((computeSpread a b 2 true).arbAlert ≠ none ↔
      1/2 < |pyRound2 ((a - b) / b * 100)|) ∧
    (computeSpread (503/5) 100 2 true).arbAlert ≠ none ∧
    (computeSpread (1003/10) 100 2 true).arbAlert = none := by
  have main : ∀ x y : ℚ, 0 < x → 0 < y →
      (computeSpread x y 2 true).spreadPercent = some (pyRound2 ((x - y) / y * 100)) ∧
      ((computeSpread x y 2 true).arbAlert ≠ none ↔
        1/2 < |pyRound2 ((x - y) / y * 100)|) := by
    intro x y hx hy
    unfold computeSpread
    rw [if_pos ⟨rfl, rfl⟩, if_pos ⟨hx, hy⟩]
    refine ⟨rfl, ?_⟩
    by_cases h : 1/2 < |pyRound2 ((x - y) / y * 100)| <;> simp [h]
  have e1 : ((503 : ℚ)/5 - 100) / 100 * 100 = 3/5 := by norm_num
  have e2 : ((1003 : ℚ)/10 - 100) / 100 * 100 = 3/10 := by norm_num
  have r1 : pyRound2 (3/5) = 3/5 := by norm_num [pyRound2]
  have r2 : pyRound2 (3/10) = 3/10 := by norm_num [pyRound2]
  refine ⟨(main a b ha hb).1, (main a b ha hb).2, ?_, ?_⟩
  · rw [(main (503/5) 100 (by norm_num) (by norm_num)).2, e1, r1]
    rw [abs_of_pos (by norm_num)]
    norm_num
  · have h := (main (1003/10) 100 (by norm_num) (by norm_num)).2
    rw [e2, r2, abs_of_pos (by norm_num)] at h
    exact not_ne_iff.mp fun hne => absurd (h.mp hne) (by norm_num)

/-- C7 witness: `computeSpread_alert_spec` instantiated at latest prices
100.6 and 100.0. -/
theorem computeSpread_alert_spec_witness :
    (computeSpread (503/5) 100 2 true).spreadPercent
        = some (pyRound2 (((503 : ℚ)/5 - 100) / 100 * 100)) ∧
    ((computeSpread (503/5) 100 2 true).arbAlert ≠ none ↔
      1/2 < |pyRound2 (((503 : ℚ)/5 - 100) / 100 * 100)|) ∧
    (computeSpread (503/5) 100 2 true).arbAlert ≠ none ∧
    (computeSpread (1003/10) 100 2 true).arbAlert = none :=
  computeSpread_alert_spec (503/5) 100 (by norm_num) (by norm_num)

/-- C2: the dedup-then-normalize step is idempotent per item.  If an item is
not yet seen and the normalizer accepts it, the first presentation appends
exactly one row to the batch and marks the key seen; provided the key is
marked seen afterwards (as `mark_seen` leaves it in every non-eviction case),
a second presentation of the same item is reported as a duplicate and skipped:
the batch and the dedup set are returned unchanged. -/
theorem processLog_idempotent (norm : LogItem → Option SwapRow)
    (enum : List String → List String) (rows0 : List SwapRow) (t0 : DedupeTracker)
    (item : LogItem) (row : SwapRow)
    (hnotdup : t0.isDuplicate item.txHash item.logIndex = false)
    (hnorm : norm item = some row)
    (hmarked : dedupKey item.txHash item.logIndex
      ∈ (processLog norm enum (rows0, t0) item).2.seen) :
    processLog norm enum (rows0, t0) item
        = (rows0 ++ [row], t0.markSeen enum item.txHash item.logIndex) ∧
    processLog norm enum (processLog norm enum (rows0, t0) item) item
        = processLog norm enum (rows0, t0) item := by
  have h1 : processLog norm enum (rows0, t0) item
      = (rows0 ++ [row], t0.markSeen enum item.txHash item.logIndex) := by
    simp only [processLog, hnotdup, hnorm, Bool.false_eq_true, if_false]
  have hdup : (t0.markSeen enum item.txHash item.logIndex).isDuplicate
      item.txHash item.logIndex = true := by
    rw [h1] at hmarked
    exact decide_eq_true hmarked
  refine ⟨h1, ?_⟩
  rw [h1]
  simp only [processLog, hdup, if_true]

/-- C2 witness: a concrete item fed twice through `processLog` starting from
an empty tracker yields exactly one accepted row and an unchanged state the
second time. -/
theorem processLog_idempotent_witness :
    processLog (fun _ => some ⟨100, 1, "h", 0, "p", none⟩) id
        ([], ⟨[], 10000⟩) ⟨"h", 0, 100, 1⟩
      = ([] ++ [⟨100, 1, "h", 0, "p", none⟩],
          DedupeTracker.markSeen id ⟨[], 10000⟩ "h" 0) ∧
    processLog (fun _ => some ⟨100, 1, "h", 0, "p", none⟩) id
        (processLog (fun _ => some ⟨100, 1, "h", 0, "p", none⟩) id
          ([], ⟨[], 10000⟩) ⟨"h", 0, 100, 1⟩) ⟨"h", 0, 100, 1⟩
      = processLog (fun _ => some ⟨100, 1, "h", 0, "p", none⟩) id
          ([], ⟨[], 10000⟩) ⟨"h", 0, 100, 1⟩ :=
  processLog_idempotent (fun _ => some ⟨100, 1, "h", 0, "p", none⟩) id []
    ⟨[], 10000⟩ ⟨"h", 0, 100, 1⟩ ⟨100, 1, "h", 0, "p", none⟩
    (by decide) rfl (by decide)

/-- A slice `xs[-n:]` of a nonempty list is nonempty. -/
lemma pySliceLast_ne_nil {α : Type} {xs : List α} (h : xs ≠ []) (n : Nat) :
    pySliceLast xs n ≠ [] := by
  unfold pySliceLast
  split
  · exact h
  · next hn =>
    have hlen : 0 < xs.length := List.length_pos.mpr h
    intro hcon
    have hl := congrArg List.length hcon
    simp only [List.length_drop, List.length_nil] at hl
    omega

/-- Characterization of `movingAverageOfPrices` on a nonempty price list:
the value is the ratio-filtered average exactly when more than one recent
sample exists, the median is positive and filtering keeps something; in every
other case it is the plain average of the recent samples. -/
lemma movingAverageOfPrices_spec (prices : List ℚ) (window : Nat)
    (hne : prices ≠ []) :
    (1 < (pySliceLast prices window).length →
      0 < medianPrice (pySliceLast prices window) →
      ratioFiltered (pySliceLast prices window) ≠ [] →
      movingAverageOfPrices prices window
        = listSum (ratioFiltered (pySliceLast prices window))
            / (ratioFiltered (pySliceLast prices window)).length) ∧
    (¬(1 < (pySliceLast prices window).length ∧
        0 < medianPrice (pySliceLast prices window) ∧
        ratioFiltered (pySliceLast prices window) ≠ []) →
      movingAverageOfPrices prices window
        = listSum (pySliceLast prices window)
            / (pySliceLast prices window).length) := by
  have hrec : pySliceLast prices window ≠ [] := pySliceLast_ne_nil hne window
  unfold movingAverageOfPrices
  rw [if_neg (by simpa [List.isEmpty_iff] using hne)]
  simp only [List.isEmpty_iff]
  rw [if_neg hrec]
  constructor
  · intro h1 h2 h3
    rw [if_pos h1, if_pos h2, if_pos (by simpa [List.isEmpty_iff] using h3)]
  · intro hcon
    by_cases h1 : 1 < (pySliceLast prices window).length
    · rw [if_pos h1]
      by_cases h2 : 0 < medianPrice (pySliceLast prices window)
      · rw [if_pos h2]
        have h3 : ¬ratioFiltered (pySliceLast prices window) ≠ [] := by
          intro h3
          exact hcon ⟨h1, h2, h3⟩
        rw [if_neg (by simpa [List.isEmpty_iff] using h3)]
      · rw [if_neg h2]
    · rw [if_neg h1]

/-- The result of `sortPricesAsc` is sorted. -/
lemma sortPricesAsc_sorted (l : List ℚ) : (sortPricesAsc l).Sorted (· ≤ ·) := by
  have h := @List.sorted_mergeSort ℚ (fun a b : ℚ => decide (a ≤ b))
    (fun a b c h1 h2 => by
      simp only [decide_eq_true_eq] at *
      exact le_trans h1 h2)
    (fun a b => by simpa using le_total a b) l
  exact h.imp fun hab => by simpa using hab

/-- `sortPricesAsc` is determined by the sorted-permutation property: it
equals any sorted rearrangement of its input. -/
lemma sortPricesAsc_eq_of {l m : List ℚ} (hperm : l.Perm m)
    (hsort : m.Sorted (· ≤ ·)) : sortPricesAsc l = m :=
  List.eq_of_perm_of_sorted ((List.mergeSort_perm l _).trans hperm)
    (sortPricesAsc_sorted l) hsort

/-- Sorting the counterexample pair. -/
lemma sortPricesAsc_neg_pair : sortPricesAsc [-1, -100] = [-100, -1] :=
  sortPricesAsc_eq_of (List.Perm.swap (-100) (-1) [])
    (by norm_num [List.sorted_cons])

/-- C3 (counterexample): the claim filters by ratio-to-median whenever more
than one sample is present, but the code only does so when the median is
positive.  On the two-sample buffer `[-1, -100]` (upper median `-1`) the code
returns the plain average `-101/2`, while the claimed algorithm would filter
out `-100` (ratio 100 to the median) and return `-1`. -/
theorem movingAverage_nonpositive_median_cex :
    movingAverageOfPrices [-1, -100] 2 = -101/2 ∧
    claimedMovingAverage [-1, -100] 2 = -1 ∧
    movingAverageOfPrices [-1, -100] 2 ≠ claimedMovingAverage [-1, -100] 2 := by
  have hslice : pySliceLast [(-1 : ℚ), -100] 2 = [-1, -100] := by
    norm_num [pySliceLast]
  have hmed : medianPrice [(-1 : ℚ), -100] = -1 := by
    rw [medianPrice, sortPricesAsc_neg_pair]
    norm_num
  have hfilt : ratioFiltered [(-1 : ℚ), -100] = [-1] := by
    rw [ratioFiltered, hmed]
    norm_num [List.filter]
  have h1 : movingAverageOfPrices [-1, -100] 2 = -101/2 := by
    rw [movingAverageOfPrices]
    rw [if_neg (by norm_num)]
    simp only [hslice, hmed]
    norm_num [listSum]
  have h2 : claimedMovingAverage [-1, -100] 2 = -1 := by
    rw [claimedMovingAverage]
    rw [if_neg (by norm_num)]
    simp only [hslice, hfilt]
    norm_num [listSum]
  exact ⟨h1, h2, by rw [h1, h2]; norm_num⟩

/-- C3 (amended): `get_moving_average` takes the most recent `window` samples
of the pool; when more than one sample is present AND their (upper) median is
positive, it discards every sample whose ratio to the median lies outside the
open interval `(0.1, 10)` and averages the remainder, falling back to the
unfiltered simple average if filtering leaves no samples or the median is not
positive.  In particular, for samples `[4000, 4010, 0.00025, 3990]` in one
pool, the moving average with window 4 excludes the `0.00025` outlier and
returns `4000`. -/
theorem getMovingAverage_spec (b : RollingPriceBuffer) (poolId : String)
    (window : Nat) (hne : b.entries poolId ≠ []) :
    (1 < (pySliceLast ((b.entries poolId).map (·.price)) window).length →
      0 < medianPrice (pySliceLast ((b.entries poolId).map (·.price)) window) →
      ratioFiltered (pySliceLast ((b.entries poolId).map (·.price)) window) ≠ [] →
      b.getMovingAverage poolId window
        = listSum (ratioFiltered (pySliceLast ((b.entries poolId).map (·.price)) window))
            / (ratioFiltered (pySliceLast ((b.entries poolId).map (·.price)) window)).length) ∧
    (¬(1 < (pySliceLast ((b.entries poolId).map (·.price)) window).length ∧
        0 < medianPrice (pySliceLast ((b.entries poolId).map (·.price)) window) ∧
        ratioFiltered (pySliceLast ((b.entries poolId).map (·.price)) window) ≠ []) →
      b.getMovingAverage poolId window
        = listSum (pySliceLast ((b.entries poolId).map (·.price)) window)
            / (pySliceLast ((b.entries poolId).map (·.price)) window).length) ∧
    RollingPriceBuffer.getMovingAverage
        ⟨[("P", [⟨4000, 10⟩, ⟨4010, 20⟩, ⟨1/4000, 30⟩, ⟨3990, 40⟩])], 20⟩ "P" 4
      = 4000 := by
  have hmap : (b.entries poolId).map (·.price) ≠ [] := by
    simpa [List.map_eq_nil_iff] using hne
  have hb : b.getMovingAverage poolId window
      = movingAverageOfPrices ((b.entries poolId).map (·.price)) window := by
    unfold RollingPriceBuffer.getMovingAverage
    rw [if_neg (by simpa [List.isEmpty_iff] using hne)]
  have hspec := movingAverageOfPrices_spec ((b.entries poolId).map (·.price)) window hmap
  refine ⟨fun h1 h2 h3 => hb.trans (hspec.1 h1 h2 h3),
         fun hcon => hb.trans (hspec.2 hcon), ?_⟩
  have hperm : List.Perm [(4000 : ℚ), 4010, 1/4000, 3990] [1/4000, 3990, 4000, 4010] := by
    refine (List.Perm.cons 4000 (List.Perm.swap (1/4000) 4010 [3990])).trans ?_
    refine (List.Perm.swap (1/4000) 4000 [4010, 3990]).trans ?_
    refine (List.Perm.cons (1/4000) (List.Perm.cons 4000 (List.Perm.swap 3990 4010 []))).trans ?_
    exact List.Perm.cons (1/4000) (List.Perm.swap 3990 4000 [4010])
  have hsortc : sortPricesAsc [(4000 : ℚ), 4010, 1/4000, 3990]
      = [1/4000, 3990, 4000, 4010] :=
    sortPricesAsc_eq_of hperm (by norm_num [List.sorted_cons])
  have hmedc : medianPrice [(4000 : ℚ), 4010, 1/4000, 3990] = 4000 := by
    rw [medianPrice, hsortc]
    norm_num
  have hfiltc : ratioFiltered [(4000 : ℚ), 4010, 1/4000, 3990] = [4000, 4010, 3990] := by
    rw [ratioFiltered, hmedc]
    norm_num [List.filter]
  have hslicec : pySliceLast [(4000 : ℚ), 4010, 1/4000, 3990] 4
      = [4000, 4010, 1/4000, 3990] := by
    norm_num [pySliceLast]
  have hentries : RollingPriceBuffer.entries
      ⟨[("P", [⟨4000, 10⟩, ⟨4010, 20⟩, ⟨1/4000, 30⟩, ⟨3990, 40⟩])], 20⟩ "P"
      = [⟨4000, 10⟩, ⟨4010, 20⟩, ⟨1/4000, 30⟩, ⟨3990, 40⟩] := rfl
  rw [RollingPriceBuffer.getMovingAverage, hentries]
  rw [if_neg (by simp)]
  show movingAverageOfPrices [4000, 4010, 1/4000, 3990] 4 = 4000
  rw [movingAverageOfPrices]
  rw [if_neg (by norm_num)]
  simp only [hslicec, hmedc, hfiltc]
  norm_num [listSum]

/-- C3 witness: `getMovingAverage_spec` applied to the concrete four-sample
buffer of the claim. -/
theorem getMovingAverage_spec_witness :
    (RollingPriceBuffer.entries
        ⟨[("P", [⟨4000, 10⟩, ⟨4010, 20⟩, ⟨1/4000, 30⟩, ⟨3990, 40⟩])], 20⟩ "P" ≠ []) ∧
    RollingPriceBuffer.getMovingAverage
        ⟨[("P", [⟨4000, 10⟩, ⟨4010, 20⟩, ⟨1/4000, 30⟩, ⟨3990, 40⟩])], 20⟩ "P" 4
      = 4000 :=
  ⟨by decide,
   (getMovingAverage_spec ⟨[("P", [⟨4000, 10⟩, ⟨4010, 20⟩, ⟨1/4000, 30⟩, ⟨3990, 40⟩])], 20⟩
      "P" 4 (by decide)).2.2⟩

/-! ## C10: the per-pool buffer bound -/

/-- Every per-pool sample list in the buffer has at most `max_size` entries. -/
def RollingPriceBuffer.Bounded (b : RollingPriceBuffer) : Prop :=
  ∀ p ∈ b.buffers, p.2.length ≤ b.maxSize

instance (b : RollingPriceBuffer) : Decidable b.Bounded := by
  unfold RollingPriceBuffer.Bounded
  infer_instance

/-- Membership after a dict assignment: the pair is the new binding or was
already present. -/
lemma mem_assocSet {l : List (String × List PriceSample)} {k : String}
    {v : List PriceSample} {p : String × List PriceSample}
    (h : p ∈ assocSet l k v) : p = (k, v) ∨ p ∈ l := by
  induction l with
  | nil =>
    simp only [assocSet, List.mem_singleton] at h
    exact Or.inl h
  | cons q rest ih =>
    simp only [assocSet] at h
    split at h
    · rcases List.mem_cons.mp h with h1 | h1
      · exact Or.inl h1
      · exact Or.inr (List.mem_cons_of_mem q h1)
    · rcases List.mem_cons.mp h with h1 | h1
      · exact Or.inr (h1 ▸ List.mem_cons_self q rest)
      · rcases ih h1 with h2 | h2
        · exact Or.inl h2
        · exact Or.inr (List.mem_cons_of_mem q h2)

/-- The entry list of any pool in a bounded buffer respects the bound. -/
lemma entries_length_le (b : RollingPriceBuffer) (hb : b.Bounded) (poolId : String) :
    (b.entries poolId).length ≤ b.maxSize := by
  unfold RollingPriceBuffer.entries
  cases hfind : b.buffers.find? fun p => p.1 == poolId with
  | none => exact Nat.zero_le _
  | some p => exact hb p (List.mem_of_find?_eq_some hfind)

/-- The slice `xs[-n:]` has at most `n` elements when `n ≠ 0`. -/
lemma pySliceLast_length_le {α : Type} (xs : List α) {n : Nat} (hn : n ≠ 0) :
    (pySliceLast xs n).length ≤ n := by
  unfold pySliceLast
  rw [if_neg hn]
  simp only [List.length_drop]
  omega

/-- C10: the per-pool sample lists of the rolling price buffer never exceed
`max_size` entries (the buffer is always constructed with `max_size = 20 > 0`):
`add_price` trims the list of the written pool back to its most recent
`max_size` entries, and `prune_by_timestamp` only removes entries — the pools
it keeps hold exactly the samples with timestamp at or above the cutoff, and
pools whose list becomes empty are deleted — so boundedness is an invariant
preserved by every buffer operation. -/
theorem priceBuffer_bound_invariant (b : RollingPriceBuffer)
    (hpos : 0 < b.maxSize) (hb : b.Bounded) :
    (∀ poolId price ts, (b.addPrice poolId price ts).Bounded) ∧
    (∀ cutoff, (b.pruneByTimestamp cutoff).Bounded) ∧
    (∀ cutoff k es, (k, es) ∈ (b.pruneByTimestamp cutoff).buffers ↔
      ∃ es₀, (k, es₀) ∈ b.buffers ∧
        es = es₀.filter (fun e => decide (cutoff ≤ e.timestamp)) ∧ es ≠ []) := by
  refine ⟨?_, ?_, ?_⟩
  · intro poolId price ts p hp
    unfold RollingPriceBuffer.addPrice at hp ⊢
    rcases mem_assocSet hp with h1 | h1
    · subst h1
      simp only
      split
      · next hlen => exact pySliceLast_length_le _ (Nat.pos_iff_ne_zero.mp hpos)
      · next hlen =>
        have := entries_length_le b hb poolId
        simp only [List.length_append, List.length_singleton] at *
        omega
    · exact hb p h1
  · intro cutoff p hp
    unfold RollingPriceBuffer.pruneByTimestamp at hp ⊢
    have hp2 := List.mem_of_mem_filter hp
    rcases List.mem_map.mp hp2 with ⟨q, hq, hqe⟩
    subst hqe
    simpa using le_trans (List.length_filter_le _ q.2) (hb q hq)
  · intro cutoff k es
    unfold RollingPriceBuffer.pruneByTimestamp
    constructor
    · intro h
      have h1 := List.mem_of_mem_filter h
      rcases List.mem_map.mp h1 with ⟨q, hq, hqe⟩
      rw [Prod.mk.injEq] at hqe
      obtain ⟨hk, hes⟩ := hqe
      refine ⟨q.2, ?_, hes.symm, ?_⟩
      · have hqeta : (k, q.2) = q := by rw [← hk, Prod.mk.eta]
        exact hqeta ▸ hq
      · have h2 := List.of_mem_filter h
        intro hcon
        rw [hcon] at h2
        simp at h2
    · rintro ⟨es₀, hmem, hes, hne⟩
      apply List.mem_filter.mpr
      constructor
      · refine List.mem_map.mpr ⟨(k, es₀), hmem, ?_⟩
        simp [hes]
      · simpa [List.isEmpty_iff, hes] using hne

/-- C10 witness: `priceBuffer_bound_invariant` on a concrete one-pool buffer
with the production `max_size = 20`. -/
theorem priceBuffer_bound_invariant_witness :
    0 < (20 : Nat) ∧
    (RollingPriceBuffer.Bounded ⟨[("P", [⟨1, 5⟩])], 20⟩) ∧
    (RollingPriceBuffer.addPrice ⟨[("P", [⟨1, 5⟩])], 20⟩ "P" 2 6).Bounded :=
  ⟨by decide, by decide,
   (priceBuffer_bound_invariant ⟨[("P", [⟨1, 5⟩])], 20⟩ (by decide) (by decide)).1 "P" 2 6⟩

/-! ## C1: rolling window pruning -/

/-- `rowKeyLe` is transitive. -/
lemma rowKeyLe_trans {a b c : SwapRow} (h1 : rowKeyLe a b) (h2 : rowKeyLe b c) :
    rowKeyLe a c := by
  unfold rowKeyLe at *
  omega

/-- `rowKeyLe` is total. -/
lemma rowKeyLe_total (a b : SwapRow) : rowKeyLe a b ∨ rowKeyLe b a := by
  unfold rowKeyLe
  omega

/-- The descending sort is pairwise `≥` in the row key. -/
lemma sortRowsDesc_pairwise (rows : List SwapRow) :
    (sortRowsDesc rows).Pairwise fun a b => rowKeyLe b a := by
  have h := @List.sorted_mergeSort SwapRow (fun a b : SwapRow => decide (rowKeyLe b a))
    (fun a b c h1 h2 => by
      simp only [decide_eq_true_eq] at *
      exact rowKeyLe_trans h2 h1)
    (fun a b => by simpa using rowKeyLe_total b a) rows
  exact h.imp fun hab => by simpa using hab

/-- The descending sort is a permutation of its input. -/
lemma sortRowsDesc_perm (rows : List SwapRow) : (sortRowsDesc rows).Perm rows :=
  List.mergeSort_perm rows _

/-- C1: for every dataset and window size, pruning retains exactly the rows
kept by sorting descending on `(timestamp, block_number)` and taking the
first `window_size`: the post-prune size is at most `window_size`; when the
pre-prune size is already within the window the operation is a no-op with
zero dropped rows and an unchanged dataset; and otherwise the kept rows plus
the discarded rows are a rearrangement of the input in which every kept row
is `(timestamp, block_number)`-greater-or-equal to every dropped row, with
`rows_dropped` reporting the excess. -/
theorem applyRollingWindowPruning_spec (rows : List SwapRow) (windowSize : Nat) :
    (applyRollingWindowPruning rows windowSize).1.length ≤ windowSize ∧
    (rows.length ≤ windowSize →
      (applyRollingWindowPruning rows windowSize).1 = rows ∧
      (applyRollingWindowPruning rows windowSize).2.rowsDropped = 0) ∧
    (windowSize < rows.length →
      (applyRollingWindowPruning rows windowSize).1
          = (sortRowsDesc rows).take windowSize ∧
      (applyRollingWindowPruning rows windowSize).2.rowsDropped
          = rows.length - windowSize ∧
      ((applyRollingWindowPruning rows windowSize).1
          ++ (sortRowsDesc rows).drop windowSize).Perm rows ∧
      ∀ x ∈ (applyRollingWindowPruning rows windowSize).1,
        ∀ y ∈ (sortRowsDesc rows).drop windowSize, rowKeyLe y x) := by
  by_cases hle : rows.length ≤ windowSize
  · have heq : applyRollingWindowPruning rows windowSize
        = (rows,
          { totalBefore := rows.length, totalAfter := rows.length, rowsDropped := 0
            oldestTs := intsMin (rows.map (·.timestamp))
            newestTs := intsMax (rows.map (·.timestamp))
            oldestBlock := intsMin (rows.map (·.blockNumber))
            newestBlock := intsMax (rows.map (·.blockNumber)) }) := by
      unfold applyRollingWindowPruning
      rw [if_pos hle]
    rw [heq]
    exact ⟨hle, fun _ => ⟨rfl, rfl⟩, fun hgt => absurd hgt (by omega)⟩
  · push_neg at hle
    have hlen : (sortRowsDesc rows).length = rows.length :=
      (sortRowsDesc_perm rows).length_eq
    have heq : applyRollingWindowPruning rows windowSize
        = ((sortRowsDesc rows).take windowSize,
          { totalBefore := rows.length
            totalAfter := ((sortRowsDesc rows).take windowSize).length
            rowsDropped := ((sortRowsDesc rows).drop windowSize).length
            oldestTs := intsMin (((sortRowsDesc rows).take windowSize).map (·.timestamp))
            newestTs := intsMax (((sortRowsDesc rows).take windowSize).map (·.timestamp))
            oldestBlock := intsMin (((sortRowsDesc rows).take windowSize).map (·.blockNumber))
            newestBlock := intsMax (((sortRowsDesc rows).take windowSize).map (·.blockNumber)) }) := by
      unfold applyRollingWindowPruning
      rw [if_neg (by omega)]
    rw [heq]
    refine ⟨by simp, fun hcon => absurd hcon (by omega), fun _ => ⟨rfl, ?_, ?_, ?_⟩⟩
    · simp [hlen]
    · rw [List.take_append_drop]
      exact sortRowsDesc_perm rows
    · intro x hx y hy
      have hpw : ((sortRowsDesc rows).take windowSize
          ++ (sortRowsDesc rows).drop windowSize).Pairwise fun a b => rowKeyLe b a := by
        rw [List.take_append_drop]
        exact sortRowsDesc_pairwise rows
      exact (List.pairwise_append.mp hpw).2.2 x hx y hy

/-- C1 witness: `applyRollingWindowPruning_spec` at a concrete three-row
dataset, window size 2 (prune branch) and window size 5 (no-op branch). -/
theorem applyRollingWindowPruning_spec_witness :
    ((2 : Nat) < ([⟨3, 0, "a", 0, "p", none⟩, ⟨2, 0, "b", 0, "p", none⟩,
        ⟨1, 0, "c", 0, "p", none⟩] : List SwapRow).length ∧
      (applyRollingWindowPruning [⟨3, 0, "a", 0, "p", none⟩, ⟨2, 0, "b", 0, "p", none⟩,
          ⟨1, 0, "c", 0, "p", none⟩] 2).1
        = (sortRowsDesc [⟨3, 0, "a", 0, "p", none⟩, ⟨2, 0, "b", 0, "p", none⟩,
            ⟨1, 0, "c", 0, "p", none⟩]).take 2 ∧
      (applyRollingWindowPruning [⟨3, 0, "a", 0, "p", none⟩, ⟨2, 0, "b", 0, "p", none⟩,
          ⟨1, 0, "c", 0, "p", none⟩] 2).2.rowsDropped = 3 - 2 ∧
      ((applyRollingWindowPruning [⟨3, 0, "a", 0, "p", none⟩, ⟨2, 0, "b", 0, "p", none⟩,
            ⟨1, 0, "c", 0, "p", none⟩] 2).1
          ++ (sortRowsDesc [⟨3, 0, "a", 0, "p", none⟩, ⟨2, 0, "b", 0, "p", none⟩,
              ⟨1, 0, "c", 0, "p", none⟩]).drop 2).Perm
        [⟨3, 0, "a", 0, "p", none⟩, ⟨2, 0, "b", 0, "p", none⟩, ⟨1, 0, "c", 0, "p", none⟩] ∧
      ∀ x ∈ (applyRollingWindowPruning [⟨3, 0, "a", 0, "p", none⟩,
          ⟨2, 0, "b", 0, "p", none⟩, ⟨1, 0, "c", 0, "p", none⟩] 2).1,
        ∀ y ∈ (sortRowsDesc [⟨3, 0, "a", 0, "p", none⟩, ⟨2, 0, "b", 0, "p", none⟩,
            ⟨1, 0, "c", 0, "p", none⟩]).drop 2, rowKeyLe y x) ∧
    (([⟨3, 0, "a", 0, "p", none⟩] : List SwapRow).length ≤ 5 ∧
      (applyRollingWindowPruning [⟨3, 0, "a", 0, "p", none⟩] 5).1
        = [⟨3, 0, "a", 0, "p", none⟩] ∧
      (applyRollingWindowPruning [⟨3, 0, "a", 0, "p", none⟩] 5).2.rowsDropped = 0) :=
  ⟨⟨by decide,
    (applyRollingWindowPruning_spec [⟨3, 0, "a", 0, "p", none⟩, ⟨2, 0, "b", 0, "p", none⟩,
      ⟨1, 0, "c", 0, "p", none⟩] 2).2.2 (by decide)⟩,
   ⟨by decide,
    (applyRollingWindowPruning_spec [⟨3, 0, "a", 0, "p", none⟩] 5).2.1 (by decide)⟩⟩

/-! ## C4: early stop during pagination -/

/-- In timestamp mode with a positive timestamp watermark, once the
pagination loop reaches a nonempty page whose minimum log timestamp is at or
below the watermark (all earlier pages being nonempty and strictly above it),
it stops right after processing that page with the early-stop flag set. -/
lemma fetchPagesLoop_ts_early_stop (wmTs wmBlk maxPages : Nat)
    (norm : LogItem → Option SwapRow) (enum : List String → List String)
    (hwm : 0 < wmTs) (pre : List (List LogItem)) :
    ∀ (page : List LogItem) (post : List (List LogItem)) (pageCount : Nat)
      (rows : List SwapRow) (t : DedupeTracker) (stats : FetchStats),
      (∀ q ∈ pre, q ≠ [] ∧ wmTs < listMin (q.map (·.ts))) →
      page ≠ [] →
      listMin (page.map (·.ts)) ≤ wmTs →
      pageCount + pre.length < maxPages →
      (fetchPagesLoop .timestamp wmTs wmBlk maxPages norm enum (pre ++ page :: post)
          pageCount rows t stats).2.2.pagesFetched
        = stats.pagesFetched + (pre.length + 1) ∧
      (fetchPagesLoop .timestamp wmTs wmBlk maxPages norm enum (pre ++ page :: post)
          pageCount rows t stats).2.2.earlyStopTriggered = true := by
  induction pre with
  | nil =>
    intro page post pageCount rows t stats hpre hpage hmin hcount
    rw [List.nil_append]
    rw [fetchPagesLoop]
    rw [if_pos (by omega : pageCount < maxPages)]
    simp only
    rw [if_neg (by simpa [List.isEmpty_iff] using hpage)]
    rw [if_pos (⟨by trivial, hwm, hmin⟩ : _ ∧ _ ∧ _)]
    constructor
    · simp
    · simp
  | cons q pre ih =>
    intro page post pageCount rows t stats hpre hpage hmin hcount
    have hq := hpre q (List.mem_cons_self q pre)
    rw [List.cons_append]
    rw [fetchPagesLoop]
    rw [if_pos (by simp only [List.length_cons] at hcount; omega : pageCount < maxPages)]
    simp only
    rw [if_neg (by simpa [List.isEmpty_iff] using hq.1)]
    rw [if_neg (fun hcon => absurd hcon.2.2 (by have := hq.2; omega))]
    rw [if_neg (by simp)]
    rw [if_neg (by simp [List.isEmpty_iff])]
    have hih := ih page post (pageCount + 1)
        (List.foldl (processLog norm enum) (rows, t) q).1
        (List.foldl (processLog norm enum) (rows, t) q).2
        { stats with
            pagesFetched := stats.pagesFetched + 1
            totalLogsFetched := stats.totalLogsFetched + q.length
            maxBlockSeen := Nat.max stats.maxBlockSeen (listMax (q.map (·.blk)))
            maxTsSeen := Nat.max stats.maxTsSeen (listMax (q.map (·.ts))) }
        (fun r hr => hpre r (List.mem_cons_of_mem q hr)) hpage hmin
        (by simp only [List.length_cons] at hcount; omega)
    exact ⟨hih.1.trans (by simp only [List.length_cons]; omega), hih.2⟩

/-- Block-mode analogue of `fetchPagesLoop_ts_early_stop`. -/
lemma fetchPagesLoop_block_early_stop (wmTs wmBlk maxPages : Nat)
    (norm : LogItem → Option SwapRow) (enum : List String → List String)
    (hwm : 0 < wmBlk) (pre : List (List LogItem)) :
    ∀ (page : List LogItem) (post : List (List LogItem)) (pageCount : Nat)
      (rows : List SwapRow) (t : DedupeTracker) (stats : FetchStats),
      (∀ q ∈ pre, q ≠ [] ∧ wmBlk < listMin (q.map (·.blk))) →
      page ≠ [] →
      listMin (page.map (·.blk)) ≤ wmBlk →
      pageCount + pre.length < maxPages →
      (fetchPagesLoop .block wmTs wmBlk maxPages norm enum (pre ++ page :: post)
          pageCount rows t stats).2.2.pagesFetched
        = stats.pagesFetched + (pre.length + 1) ∧
      (fetchPagesLoop .block wmTs wmBlk maxPages norm enum (pre ++ page :: post)
          pageCount rows t stats).2.2.earlyStopTriggered = true := by
  induction pre with
  | nil =>
    intro page post pageCount rows t stats hpre hpage hmin hcount
    rw [List.nil_append]
    rw [fetchPagesLoop]
    rw [if_pos (by omega : pageCount < maxPages)]
    simp only
    rw [if_neg (by simpa [List.isEmpty_iff] using hpage)]
    rw [if_neg (by simp)]
    rw [if_pos (⟨by trivial, hwm, hmin⟩ : _ ∧ _ ∧ _)]
    constructor
    · simp
    · simp
  | cons q pre ih =>
    intro page post pageCount rows t stats hpre hpage hmin hcount
    have hq := hpre q (List.mem_cons_self q pre)
    rw [List.cons_append]
    rw [fetchPagesLoop]
    rw [if_pos (by simp only [List.length_cons] at hcount; omega : pageCount < maxPages)]
    simp only
    rw [if_neg (by simpa [List.isEmpty_iff] using hq.1)]
    rw [if_neg (by simp)]
    rw [if_neg (fun hcon => absurd hcon.2.2 (by have := hq.2; omega))]
    rw [if_neg (by simp [List.isEmpty_iff])]
    have hih := ih page post (pageCount + 1)
        (List.foldl (processLog norm enum) (rows, t) q).1
        (List.foldl (processLog norm enum) (rows, t) q).2
        { stats with
            pagesFetched := stats.pagesFetched + 1
            totalLogsFetched := stats.totalLogsFetched + q.length
            maxBlockSeen := Nat.max stats.maxBlockSeen (listMax (q.map (·.blk)))
            maxTsSeen := Nat.max stats.maxTsSeen (listMax (q.map (·.ts))) }
        (fun r hr => hpre r (List.mem_cons_of_mem q hr)) hpage hmin
        (by simp only [List.length_cons] at hcount; omega)
    exact ⟨hih.1.trans (by simp only [List.length_cons]; omega), hih.2⟩

/-- C4: in timestamp mode with a positive timestamp watermark, if a fetched
nonempty page has minimum log timestamp at or below the watermark (all
earlier pages of the pool being nonempty with minima strictly above it, and
the page budget not yet exhausted), then no further page is requested for
that pool after that page is processed — the pages-fetched count stops at
that page — and the cycle stats report `early_stop_triggered = true`; the
analogous property holds in block mode for the minimum block number against
the block watermark. -/
theorem fetchAndProcessLogs_early_stop :
    (∀ (wmTs wmBlk maxPages : Nat) (norm : LogItem → Option SwapRow)
        (enum : List String → List String) (pre : List (List LogItem))
        (page : List LogItem) (post : List (List LogItem)) (dedupe : DedupeTracker),
      0 < wmTs →
      (∀ q ∈ pre, q ≠ [] ∧ wmTs < listMin (q.map (·.ts))) →
      page ≠ [] →
      listMin (page.map (·.ts)) ≤ wmTs →
      pre.length < maxPages →
      (fetchAndProcessLogs .timestamp wmTs wmBlk maxPages norm enum
          (pre ++ page :: post) dedupe).2.2.pagesFetched = pre.length + 1 ∧
      (fetchAndProcessLogs .timestamp wmTs wmBlk maxPages norm enum
          (pre ++ page :: post) dedupe).2.2.earlyStopTriggered = true) ∧
    (∀ (wmTs wmBlk maxPages : Nat) (norm : LogItem → Option SwapRow)
        (enum : List String → List String) (pre : List (List LogItem))
        (page : List LogItem) (post : List (List LogItem)) (dedupe : DedupeTracker),
      0 < wmBlk →
      (∀ q ∈ pre, q ≠ [] ∧ wmBlk < listMin (q.map (·.blk))) →
      page ≠ [] →
      listMin (page.map (·.blk)) ≤ wmBlk →
      pre.length < maxPages →
      (fetchAndProcessLogs .block wmTs wmBlk maxPages norm enum
          (pre ++ page :: post) dedupe).2.2.pagesFetched = pre.length + 1 ∧
      (fetchAndProcessLogs .block wmTs wmBlk maxPages norm enum
          (pre ++ page :: post) dedupe).2.2.earlyStopTriggered = true) := by
  constructor
  · intro wmTs wmBlk maxPages norm enum pre page post dedupe hwm hpre hpage hmin hcount
    have h := fetchPagesLoop_ts_early_stop wmTs wmBlk maxPages norm enum hwm pre
      page post 0 [] dedupe initialFetchStats hpre hpage hmin (by omega)
    exact ⟨h.1.trans (by simp [initialFetchStats]), h.2⟩
  · intro wmTs wmBlk maxPages norm enum pre page post dedupe hwm hpre hpage hmin hcount
    have h := fetchPagesLoop_block_early_stop wmTs wmBlk maxPages norm enum hwm pre
      page post 0 [] dedupe initialFetchStats hpre hpage hmin (by omega)
    exact ⟨h.1.trans (by simp [initialFetchStats]), h.2⟩

/-- C4 witness: a synthetic paginated source with three pages; in timestamp
mode page 2 crosses the watermark 60, so exactly two pages are fetched and
the early-stop flag is reported; likewise in block mode with watermark 6. -/
theorem fetchAndProcessLogs_early_stop_witness :
    ((fetchAndProcessLogs .timestamp 60 0 10 (fun _ => (none : Option SwapRow)) id
        (([[⟨"a", 0, 100, 10⟩]] : List (List LogItem)) ++ ([⟨"b", 0, 50, 5⟩] : List LogItem) :: [[⟨"c", 0, 40, 4⟩]])
        ⟨[], 10000⟩).2.2.pagesFetched = ([[⟨"a", 0, 100, 10⟩]] : List (List LogItem)).length + 1 ∧
      (fetchAndProcessLogs .timestamp 60 0 10 (fun _ => (none : Option SwapRow)) id
        (([[⟨"a", 0, 100, 10⟩]] : List (List LogItem)) ++ ([⟨"b", 0, 50, 5⟩] : List LogItem) :: [[⟨"c", 0, 40, 4⟩]])
        ⟨[], 10000⟩).2.2.earlyStopTriggered = true) ∧
    ((fetchAndProcessLogs .block 0 6 10 (fun _ => (none : Option SwapRow)) id
        (([[⟨"a", 0, 100, 10⟩]] : List (List LogItem)) ++ ([⟨"b", 0, 50, 5⟩] : List LogItem) :: [[⟨"c", 0, 40, 4⟩]])
        ⟨[], 10000⟩).2.2.pagesFetched = ([[⟨"a", 0, 100, 10⟩]] : List (List LogItem)).length + 1 ∧
      (fetchAndProcessLogs .block 0 6 10 (fun _ => (none : Option SwapRow)) id
        (([[⟨"a", 0, 100, 10⟩]] : List (List LogItem)) ++ ([⟨"b", 0, 50, 5⟩] : List LogItem) :: [[⟨"c", 0, 40, 4⟩]])
        ⟨[], 10000⟩).2.2.earlyStopTriggered = true) :=
  ⟨fetchAndProcessLogs_early_stop.1 60 0 10 (fun _ => (none : Option SwapRow)) id
      ([[⟨"a", 0, 100, 10⟩]] : List (List LogItem)) ([⟨"b", 0, 50, 5⟩] : List LogItem) [[⟨"c", 0, 40, 4⟩]] ⟨[], 10000⟩
      (by decide) (by decide) (by decide) (by decide) (by decide),
   fetchAndProcessLogs_early_stop.2 0 6 10 (fun _ => (none : Option SwapRow)) id
      ([[⟨"a", 0, 100, 10⟩]] : List (List LogItem)) ([⟨"b", 0, 50, 5⟩] : List LogItem) [[⟨"c", 0, 40, 4⟩]] ⟨[], 10000⟩
      (by decide) (by decide) (by decide) (by decide) (by decide)⟩

end AlphaFoundry
